import Mathlib

/-!
Shallow embedding of the metric pipeline of `src/app.py` (Excel → Streamlit
warehouse-work analyzer).  Python/pandas strings are modeled through their
character lists; a pandas `Series` operation is modeled by its action on one
element; a `DataFrame` of work rows is modeled as a `List` of records.
Quantities (pandas floats) are modeled over an arbitrary linear ordered
commutative ring `K`, so every theorem below covers `ℚ` and `ℝ` alike;
days are proleptic-Gregorian day numbers (`ℤ`, days since 1970-01-01) and
serial-date cells are rationals.
-/

namespace OPS

/-! ### Text normalization (`normalize_str_series`, app.py lines 34-39) -/

/-- Whitespace stripped by Python `str.strip` (restricted to the ASCII
whitespace characters; the model does not cover non-ASCII Unicode spaces). -/
def isSpaceChar (c : Char) : Bool :=
  c == ' ' || c == '\t' || c == '\n' || c == '\r' || c == '\x0b' || c == '\x0c'

def ltrimL (l : List Char) : List Char := l.dropWhile isSpaceChar

def rtrimL (l : List Char) : List Char := (l.reverse.dropWhile isSpaceChar).reverse

/-- `str.strip()` : drop whitespace from both ends. -/
def trimL (l : List Char) : List Char := rtrimL (ltrimL l)

/-- One character's image under `unicodedata` NFKD decomposition followed by
`encode("ascii","ignore")`: an ASCII character is kept, a Latin letter with a
Czech diacritic decomposes into its base letter plus a combining mark and the
mark is dropped by the ascii encode, and a non-ASCII character whose NFKD form
contains no ASCII constituent (for example '€', whose NFKD form is itself) is
removed entirely. -/
def charNFKDAscii (c : Char) : List Char :=
  if c.toNat ≤ 127 then [c]
  else
    match c with
    | 'á' => ['a'] | 'Á' => ['A']
    | 'č' => ['c'] | 'Č' => ['C']
    | 'ď' => ['d'] | 'Ď' => ['D']
    | 'é' => ['e'] | 'É' => ['E']
    | 'ě' => ['e'] | 'Ě' => ['E']
    | 'í' => ['i'] | 'Í' => ['I']
    | 'ň' => ['n'] | 'Ň' => ['N']
    | 'ó' => ['o'] | 'Ó' => ['O']
    | 'ř' => ['r'] | 'Ř' => ['R']
    | 'š' => ['s'] | 'Š' => ['S']
    | 'ť' => ['t'] | 'Ť' => ['T']
    | 'ú' => ['u'] | 'Ú' => ['U']
    | 'ů' => ['u'] | 'Ů' => ['U']
    | 'ý' => ['y'] | 'Ý' => ['Y']
    | 'ž' => ['z'] | 'Ž' => ['Z']
    | _ => []

def stripDiacriticsL (l : List Char) : List Char := l.flatMap charNFKDAscii

def upperL (l : List Char) : List Char := l.map Char.toUpper

/-- The normalization pipeline of app.py lines 36-39 on one string:
strip, NFKD→ascii, uppercase. -/
def normL (l : List Char) : List Char := upperL (stripDiacriticsL (trimL l))

def normalizeString (s : String) : String := ⟨normL s.data⟩

/-- `normalize_str_series` on one element: `fillna("")` then the pipeline. -/
def normalize_str_series (s : Option String) : String := normalizeString (s.getD "")

/-- `astype("string").fillna("").str.strip()` on one element (used for the
user / SKU / location columns, which are trimmed but not normalized). -/
def trimOpt (s : Option String) : String := ⟨trimL (s.getD "").data⟩

/-! ### Cells and numeric coercion -/

/-- A raw spreadsheet cell as seen by the numeric coercions: either a value
that `pd.to_numeric` / `pd.to_datetime` can interpret as a number, or not. -/
inductive Cell (α : Type*) where
  | num (q : α)
  | nonNumeric
deriving DecidableEq, Repr

/-- `pd.to_numeric(·, errors="coerce")` on one cell. -/
def parseNum {α : Type*} : Cell α → Option α
  | .num q => some q
  | .nonNumeric => none

/-! ### Excel serial dates (`to_excel_date_series`, app.py lines 41-45) -/

/-- Proleptic-Gregorian day count of a civil date, days since 1970-01-01
(Hinnant's days-from-civil algorithm; all inner divisions act on
nonnegative values). -/
def daysFromCivil (y m d : ℤ) : ℤ :=
  let y' := if m ≤ 2 then y - 1 else y
  let era := (if 0 ≤ y' then y' else y' - 399) / 400
  let yoe := y' - era * 400
  let doy := (153 * (if 2 < m then m - 3 else m + 9) + 2) / 5 + d - 1
  let doe := yoe * 365 + yoe / 4 - yoe / 100 + doy
  era * 146097 + doe - 719468

/-- Excel's serial-date origin `1899-12-30` (app.py line 44). -/
def excelEpoch : ℤ := daysFromCivil 1899 12 30

/-- `to_excel_date_series` on one cell followed by `.dt.floor("D").dt.date`:
a numeric serial is an offset in days from the origin, the time-of-day
fraction is floored away; a non-numeric cell coerces to `NaT` (`none`).
(The model idealizes away the pandas int64-nanosecond timestamp range
limit, which sits far outside the serial values in scope.) -/
def to_excel_date (c : Cell ℚ) : Option ℤ :=
  (parseNum c).map (fun q => excelEpoch + ⌊q⌋)

/-! ### Category flags (app.py lines 101-104), on normalized text -/

def is_prijem (wt wc : String) : Bool := wt == "VLOZIT" && wc == "NAKUP"

def is_expedice (wt wc : String) : Bool :=
  wt == "VYDAT" && (wc == "PRODEJ" || wc == "")

def is_tonovani (wt wc : String) : Bool :=
  wt == "VLOZIT" && (wc == "VYROBA" || wc == "PO_POZN")

def is_transfer (wt wc : String) : Bool := wt == "VLOZIT" && wc == ""

/-! ### Location bucketing (app.py lines 106-113) -/

/-- The character class `[A-ZÁČĎÉĚÍŇÓŘŠŤÚŮÝŽ]` of `addr_regex`. -/
def addrLetter (c : Char) : Bool :=
  ('A' ≤ c && c ≤ 'Z') ||
    ['Á', 'Č', 'Ď', 'É', 'Ě', 'Í', 'Ň', 'Ó', 'Ř', 'Š', 'Ť', 'Ú', 'Ů', 'Ý', 'Ž'].contains c

/-- Split a character list on `'-'` (the semantics of Python `split("-")`). -/
def splitOnDash : List Char → List (List Char)
  | [] => [[]]
  | c :: t =>
    if c == '-' then [] :: splitOnDash t
    else
      match splitOnDash t with
      | [] => [[c]]
      | g :: gs => (c :: g) :: gs

/-- One-or-more ASCII digits (`\d+`; the model restricts `\d` to ASCII). -/
def isDigitGroup (l : List Char) : Bool := !l.isEmpty && l.all Char.isDigit

/-- `Location.str.fullmatch(addr_regex)` for
`addr_regex = ^[A-ZÁČĎÉĚÍŇÓŘŠŤÚŮÝŽ]-\d+-\d+-\d+$`.  Since `'-'` matches
neither the letter class nor `\d`, the regex language is exactly the strings
whose split on `'-'` has the shape letter / digits / digits / digits. -/
def matchesAddr (s : String) : Bool :=
  match splitOnDash s.data with
  | [[c], g1, g2, g3] =>
    addrLetter c && isDigitGroup g1 && isDigitGroup g2 && isDigitGroup g3
  | _ => false

def locationBucketLabel : String := "Adresy (kódy)"

/-- `np.where(Location.str.fullmatch(addr_regex), "Adresy (kódy)", Location)`
on one element (app.py lines 109-113). -/
def locationBucket (loc : String) : String :=
  if matchesAddr loc then locationBucketLabel else loc

/-! ### Row enrichment (`add_computed_columns`, app.py lines 69-118) -/

section Pipeline

variable (K : Type*) [LinearOrderedCommRing K]

/-- One input row, with the eight required columns' cells.  Text cells are
`Option String` (`none` models a missing/NaN value); the quantity cell
carries a `K`, the closed-work serial-date cell a rational. -/
structure RawRow where
  typPrace : Option String
  idPracovniTridy : Option String
  mnozstviPrace : Cell K
  jednotka : Option String
  uzavrenaPrace : Cell ℚ
  idUzivatele : Option String
  cPolozky : Option String
  misto : Option String
deriving DecidableEq

/-- One enriched row (the computed columns of app.py lines 81-113). -/
structure Enriched where
  den : ℤ
  user : String
  sku : String
  location : String
  locBucket : String
  qty : K
  effQty : K
  skpQty : K
  prijem : Bool
  expedice : Bool
  tonovani : Bool
  transfer : Bool
deriving DecidableEq

variable {K}

/-- `Qty = pd.to_numeric(..., errors="coerce").fillna(0.0)` (line 91). -/
def parseQty (c : Cell K) : K := (parseNum c).getD 0

/-- The computed columns of one kept row of `add_computed_columns`, given
its already-derived day. -/
def enrichWith (r : RawRow K) (den : ℤ) : Enriched K :=
  { den := den
    user := trimOpt r.idUzivatele
    sku := trimOpt r.cPolozky
    location := trimOpt r.misto
    locBucket := locationBucket (trimOpt r.misto)
    qty := parseQty r.mnozstviPrace
    effQty := if normalize_str_series r.jednotka == "ST" then 1 else parseQty r.mnozstviPrace
    skpQty :=
      if normalize_str_series r.jednotka == "PAL" then parseQty r.mnozstviPrace * 24
      else parseQty r.mnozstviPrace
    prijem := is_prijem (normalize_str_series r.typPrace) (normalize_str_series r.idPracovniTridy)
    expedice := is_expedice (normalize_str_series r.typPrace) (normalize_str_series r.idPracovniTridy)
    tonovani := is_tonovani (normalize_str_series r.typPrace) (normalize_str_series r.idPracovniTridy)
    transfer := is_transfer (normalize_str_series r.typPrace) (normalize_str_series r.idPracovniTridy) }

/-- The per-row work of `add_computed_columns`, with the final
`df[~pd.isna(df["Den"])]` filter (line 116) folded in: a row whose serial
date does not parse yields `none` and is dropped. -/
def enrichRow (r : RawRow K) : Option (Enriched K) :=
  (to_excel_date r.uzavrenaPrace).map (enrichWith r)

def enrichRows (l : List (RawRow K)) : List (Enriched K) := l.filterMap enrichRow

/-- The required-column list of app.py lines 74-77. -/
def required_cols : List String :=
  ["Typ práce", "ID pracovní třídy", "Množství práce", "Jednotka",
   "Uzavřená práce", "ID uživatele", "Č. položky", "Místo"]

/-- A loaded DataFrame: its column names, and its rows' cells for the
required columns (the cells are meaningful only when the column is present;
`ensure_columns` guards every access). -/
structure RawFrame (K : Type*) [LinearOrderedCommRing K] where
  cols : List String
  rows : List (RawRow K)

/-- `missing = [c for c in required if c not in df.columns]` (line 65). -/
def missingColumns (cols required : List String) : List String :=
  required.filter (fun c => !(cols.contains c))

/-- `ensure_columns` (lines 64-67): raise iff `missing` is nonempty, the
error carrying the whole list of missing required columns. -/
def ensure_columns (cols required : List String) : Except (List String) Unit :=
  let missing := missingColumns cols required
  if missing.isEmpty then .ok () else .error missing

/-- `add_computed_columns` on a frame: check the required columns, then
enrich every row (dropping rows with an unparseable date). -/
def add_computed_columns (f : RawFrame K) : Except (List String) (List (Enriched K)) :=
  match ensure_columns f.cols required_cols with
  | .error m => .error m
  | .ok _ => .ok (enrichRows f.rows)

end Pipeline

/-! ### Sorting / group-by machinery

Pandas `groupby(by_cols, dropna=False)[col].sum()` produces one output row
per distinct key, sorted ascending by the key (the `sort=True` default),
each carrying the sum over that key's group.  `sort_values` is modeled by a
stable insertion sort (with distinct sort values the stability convention is
immaterial). -/

section Sorting

variable {α : Type*}

def insertSortedBy (le : α → α → Bool) (a : α) : List α → List α
  | [] => [a]
  | b :: l => if le a b then a :: b :: l else b :: insertSortedBy le a l

def sortListBy (le : α → α → Bool) (l : List α) : List α :=
  l.foldr (insertSortedBy le) []

end Sorting

section Tables

variable {K : Type*} [LinearOrderedCommRing K]

/-- Code-point lexicographic order on character lists (how pandas sorts
Python strings). -/
def charListLe : List Char → List Char → Bool
  | [], _ => true
  | _ :: _, [] => false
  | a :: as, b :: bs =>
    if a < b then true else if b < a then false else charListLe as bs

def strLe (s t : String) : Bool := charListLe s.data t.data

/-- Ascending lexicographic order on a (Den, User) grouping key. -/
def duKeyLe (k₁ k₂ : ℤ × String) : Bool :=
  decide (k₁.1 < k₂.1) || (decide (k₁.1 = k₂.1) && strLe k₁.2 k₂.2)

/-- Ascending lexicographic order on a (Den, User, SKU) grouping key. -/
def skuKeyLe (k₁ k₂ : ℤ × String × String) : Bool :=
  decide (k₁.1 < k₂.1) ||
    (decide (k₁.1 = k₂.1) &&
      ((strLe k₁.2.1 k₂.2.1 && !strLe k₂.2.1 k₁.2.1) ||
        (k₁.2.1 == k₂.2.1 && strLe k₁.2.2 k₂.2.2)))

def duKey (e : Enriched K) : ℤ × String := (e.den, e.user)

def skuKey (e : Enriched K) : ℤ × String × String := (e.den, e.user, e.sku)

/-- Sum of `val` over the rows of `l` whose key is `k`. -/
def sumAt {κ : Type*} [DecidableEq κ] (key : α → κ) (val : α → K) (l : List α)
    (k : κ) : K :=
  ((l.filter (fun e => decide (key e = k))).map val).sum

/-- `groupby(key)[val].sum()` over an already mask-filtered list: one row per
distinct key, keys sorted ascending. -/
def groupSum {κ : Type*} [DecidableEq κ] (le : κ → κ → Bool) (key : α → κ)
    (val : α → K) (l : List α) : List (κ × K) :=
  (sortListBy le ((l.map key).dedup)).map (fun k => (k, sumAt key val l k))

/-- `agg_metric` (app.py lines 174-177): filter by the mask column, group by
the key, sum the value column. -/
def agg_metric {κ : Type*} [DecidableEq κ] (le : κ → κ → Bool)
    (rows : List (Enriched K)) (mask : Enriched K → Bool) (key : Enriched K → κ)
    (val : Enriched K → K) : List (κ × K) :=
  groupSum le key val (rows.filter mask)

/-- Zero-filling lookup: the value a key gets from an outer-merged
sub-aggregate, `fillna(0.0)` supplying `0` for keys the sub-aggregate does
not contain. -/
def lookupOrZero {κ : Type*} [DecidableEq κ] (t : List (κ × K)) (k : κ) : K :=
  match t.find? (fun p => decide (p.1 = k)) with
  | some p => p.2
  | none => 0

/-- One row of table 1 (Den × Uživatel). -/
structure DURow (K : Type*) [LinearOrderedCommRing K] where
  den : ℤ
  user : String
  prijem : K
  expedice : K
  tonovani : K
  celkem : K
deriving DecidableEq

/-- Table 1, `den_user` (app.py lines 180-187): the three per-category
aggregates outer-merged on (Den, User) with `fillna(0.0)`, then
`Celkem_bez_Transfery` as the row-wise sum of the three metric columns. -/
def den_user (rows : List (Enriched K)) : List (DURow K) :=
  let tp := agg_metric duKeyLe rows (fun e => e.prijem) duKey (fun e => e.effQty)
  let te := agg_metric duKeyLe rows (fun e => e.expedice) duKey (fun e => e.effQty)
  let tt := agg_metric duKeyLe rows (fun e => e.tonovani) duKey (fun e => e.skpQty)
  let keys := sortListBy duKeyLe ((tp.map Prod.fst ++ te.map Prod.fst ++ tt.map Prod.fst).dedup)
  keys.map fun k =>
    let p := lookupOrZero tp k
    let e := lookupOrZero te k
    let t := lookupOrZero tt k
    ⟨k.1, k.2, p, e, t, p + e + t⟩

/-- One row of table 2 (Den × Uživatel × SKU). -/
structure SKURow (K : Type*) [LinearOrderedCommRing K] where
  den : ℤ
  user : String
  sku : String
  prijem : K
  expedice : K
  tonovani : K
deriving DecidableEq

/-- Table 2, `sku_pivot` (app.py lines 190-196): the same outer merge with
zero fill, on the (Den, User, SKU) key. -/
def sku_pivot (rows : List (Enriched K)) : List (SKURow K) :=
  let tp := agg_metric skuKeyLe rows (fun e => e.prijem) skuKey (fun e => e.effQty)
  let te := agg_metric skuKeyLe rows (fun e => e.expedice) skuKey (fun e => e.effQty)
  let tt := agg_metric skuKeyLe rows (fun e => e.tonovani) skuKey (fun e => e.skpQty)
  let keys := sortListBy skuKeyLe ((tp.map Prod.fst ++ te.map Prod.fst ++ tt.map Prod.fst).dedup)
  keys.map fun k =>
    ⟨k.1, k.2.1, k.2.2, lookupOrZero tp k, lookupOrZero te k, lookupOrZero tt k⟩

/-- One row of table 3 (Denní součty). -/
structure DTRow (K : Type*) [LinearOrderedCommRing K] where
  den : ℤ
  prijem : K
  expedice : K
  tonovani : K
  celkem : K
deriving DecidableEq

/-- Table 3, `den_totals` (app.py line 203): group table 1 by day and sum
its four numeric columns. -/
def den_totals (rows : List (Enriched K)) : List (DTRow K) :=
  let du := den_user rows
  (sortListBy (fun d₁ d₂ => decide (d₁ ≤ d₂)) ((du.map (fun r => r.den)).dedup)).map
    fun d =>
      let g := du.filter (fun r => decide (r.den = d))
      ⟨d, (g.map (fun r => r.prijem)).sum, (g.map (fun r => r.expedice)).sum,
        (g.map (fun r => r.tonovani)).sum, (g.map (fun r => r.celkem)).sum⟩

/-- Table 4, `transfer_df` (app.py line 206): transfer-flagged rows grouped
by (Den, LocationBucket), recording only the group sizes (a row count,
`ℕ`-valued, no quantity). -/
def transfer_df (rows : List (Enriched K)) : List ((ℤ × String) × ℕ) :=
  let ks := (rows.filter (fun e => e.transfer)).map (fun e => (e.den, e.locBucket))
  (sortListBy duKeyLe ks.dedup).map (fun k => (k, ks.count k))

/-! ### Top-N selector (app.py lines 226-251) -/

/-- One row of `sku_scores` / `sku_top`: a `sku_pivot` row with the
`Soucet` score column appended. -/
structure ScoredRow (K : Type*) [LinearOrderedCommRing K] where
  den : ℤ
  user : String
  sku : String
  prijem : K
  expedice : K
  tonovani : K
  soucet : K
deriving DecidableEq

/-- `sku_scores = sku_pivot.assign(Soucet = sum of the three metrics)`
(line 227). -/
def addSoucet (r : SKURow K) : ScoredRow K :=
  ⟨r.den, r.user, r.sku, r.prijem, r.expedice, r.tonovani,
    r.prijem + r.expedice + r.tonovani⟩

/-- `mask_top` (lines 234-238): optional narrowing to one day and/or one
user; `none` is the "(vše)" / "(všichni)" sentinel. -/
def maskTop (selDay : Option ℤ) (selUser : Option String) (r : ScoredRow K) : Bool :=
  (match selDay with | none => true | some d => decide (r.den = d)) &&
    (match selUser with | none => true | some u => r.user == u)

def scoredKey (r : ScoredRow K) : ℤ × String × String := (r.den, r.user, r.sku)

/-- Descending-by-`Soucet` comparison for `sort_values("Soucet",
ascending=False)`. -/
def soucetDesc (a b : ScoredRow K) : Bool := decide (b.soucet ≤ a.soucet)

/-- The `groupby(["Den","User","SKU"], as_index=False).agg(sum)` of lines
242-243: one row per distinct key with all four numeric columns summed —
and, with pandas' `sort=True` default, the output re-sorted ascending by the
grouping key, regardless of the order of the input rows. -/
def skuGroupAgg (l : List (ScoredRow K)) : List (ScoredRow K) :=
  (sortListBy skuKeyLe ((l.map scoredKey).dedup)).map fun k =>
    let g := l.filter (fun r => decide (scoredKey r = k))
    ⟨k.1, k.2.1, k.2.2, (g.map (fun r => r.prijem)).sum, (g.map (fun r => r.expedice)).sum,
      (g.map (fun r => r.tonovani)).sum, (g.map (fun r => r.soucet)).sum⟩

/-- `sku_top` (lines 240-251): apply the narrowing mask, sort by score
descending, group-aggregate (which re-sorts by key), then `head(top_n)` —
directly when narrowed, after re-sorting by score descending when not. -/
def sku_top (pivot : List (SKURow K)) (selDay : Option ℤ) (selUser : Option String)
    (n : ℕ) : List (ScoredRow K) :=
  let scores := pivot.map addSoucet
  let filtered := scores.filter (maskTop selDay selUser)
  let grouped := skuGroupAgg (sortListBy soucetDesc filtered)
  if selDay.isSome || selUser.isSome then grouped.take n
  else (sortListBy soucetDesc grouped).take n

end Tables

/-! ## Helper lemmas: mutual exclusivity of the category flags -/

theorem prijem_expedice_excl (wt wc : String) :
    (is_prijem wt wc && is_expedice wt wc) = false := by
  unfold is_prijem is_expedice
  by_cases h : wt = "VLOZIT"
  · subst h; simp [show (("VLOZIT" : String) == "VYDAT") = false from by decide]
  · simp [show (wt == "VLOZIT") = false from by simpa using h]

theorem prijem_tonovani_excl (wt wc : String) :
    (is_prijem wt wc && is_tonovani wt wc) = false := by
  unfold is_prijem is_tonovani
  by_cases h : wc = "NAKUP"
  · subst h
    simp [show (("NAKUP" : String) == "VYROBA") = false from by decide,
      show (("NAKUP" : String) == "PO_POZN") = false from by decide]
  · simp [show (wc == "NAKUP") = false from by simpa using h]

theorem prijem_transfer_excl (wt wc : String) :
    (is_prijem wt wc && is_transfer wt wc) = false := by
  unfold is_prijem is_transfer
  by_cases h : wc = "NAKUP"
  · subst h; simp [show (("NAKUP" : String) == "") = false from by decide]
  · simp [show (wc == "NAKUP") = false from by simpa using h]

theorem expedice_tonovani_excl (wt wc : String) :
    (is_expedice wt wc && is_tonovani wt wc) = false := by
  unfold is_expedice is_tonovani
  by_cases h : wt = "VYDAT"
  · subst h; simp [show (("VYDAT" : String) == "VLOZIT") = false from by decide]
  · simp [show (wt == "VYDAT") = false from by simpa using h]

theorem expedice_transfer_excl (wt wc : String) :
    (is_expedice wt wc && is_transfer wt wc) = false := by
  unfold is_expedice is_transfer
  by_cases h : wt = "VYDAT"
  · subst h; simp [show (("VYDAT" : String) == "VLOZIT") = false from by decide]
  · simp [show (wt == "VYDAT") = false from by simpa using h]

theorem tonovani_transfer_excl (wt wc : String) :
    (is_tonovani wt wc && is_transfer wt wc) = false := by
  unfold is_tonovani is_transfer
  by_cases h : wc = ""
  · subst h
    simp [show (("" : String) == "VYROBA") = false from by decide,
      show (("" : String) == "PO_POZN") = false from by decide]
  · simp [show (wc == "") = false from by simpa using h]

/-- A transfer row satisfies none of the three counted-category flags. -/
theorem transfer_excludes_others (wt wc : String) (h : is_transfer wt wc = true) :
    is_prijem wt wc = false ∧ is_expedice wt wc = false ∧ is_tonovani wt wc = false := by
  refine ⟨?_, ?_, ?_⟩
  · have := prijem_transfer_excl wt wc; cases hb : is_prijem wt wc <;> simp_all
  · have := expedice_transfer_excl wt wc; cases hb : is_expedice wt wc <;> simp_all
  · have := tonovani_transfer_excl wt wc; cases hb : is_tonovani wt wc <;> simp_all

/-- Pairwise-false boolean products bound the count of true flags. -/
theorem count_le_one_of_pairwise (a b c d : Bool)
    (hab : (a && b) = false) (hac : (a && c) = false) (had : (a && d) = false)
    (hbc : (b && c) = false) (hbd : (b && d) = false) (hcd : (c && d) = false) :
    List.count true [a, b, c, d] ≤ 1 := by
  cases a <;> cases b <;> cases c <;> cases d <;> simp_all [List.count_cons]

/-! ## Helper lemmas: `groupSum` / `lookupOrZero` compute conditional sums -/

section SortLemmas

variable {α κ : Type*} [DecidableEq κ]

theorem mem_insertSortedBy (le : α → α → Bool) (a b : α) (l : List α) :
    b ∈ insertSortedBy le a l ↔ b = a ∨ b ∈ l := by
  induction l with
  | nil => simp [insertSortedBy]
  | cons c t ih =>
    simp only [insertSortedBy]
    split
    · simp
    · simp [ih]; tauto

theorem mem_sortListBy (le : α → α → Bool) (b : α) (l : List α) :
    b ∈ sortListBy le l ↔ b ∈ l := by
  induction l with
  | nil => simp [sortListBy]
  | cons c t ih =>
    show b ∈ insertSortedBy le c (sortListBy le t) ↔ _
    rw [mem_insertSortedBy]
    simp [ih]

theorem find?_map_key {β : Type*} (g : κ → β) (ks : List κ) (k : κ) :
    (ks.map (fun k' => (k', g k'))).find? (fun p => decide (p.1 = k)) =
      if k ∈ ks then some (k, g k) else none := by
  induction ks with
  | nil => simp
  | cons a t ih =>
    simp only [List.map_cons, List.find?_cons]
    by_cases hak : a = k
    · subst hak; simp
    · have hd : (decide (a = k)) = false := by simp [hak]
      simp only [hd, ih, List.mem_cons]
      have hne : ¬k = a := fun h => hak h.symm
      simp [hne]

end SortLemmas

section GroupLemmas

variable {α κ : Type*} {K : Type*} [LinearOrderedCommRing K] [DecidableEq κ]

theorem sumAt_eq_zero (key : α → κ) (val : α → K) (l : List α) (k : κ)
    (h : k ∉ l.map key) : sumAt key val l k = 0 := by
  induction l with
  | nil => simp [sumAt]
  | cons a t ih =>
    simp only [List.map_cons, List.mem_cons, not_or] at h
    have hka : decide (key a = k) = false := by
      simp only [decide_eq_false_iff_not]
      exact fun hh => h.1 hh.symm
    simp only [sumAt, List.filter_cons, hka]
    exact ih h.2

/-- The central group-by fact: looking a key up in a `groupSum` table with
zero filling returns exactly the conditional sum over that key's rows. -/
theorem lookupOrZero_groupSum (le : κ → κ → Bool) (key : α → κ) (val : α → K)
    (l : List α) (k : κ) :
    lookupOrZero (groupSum le key val l) k = sumAt key val l k := by
  unfold lookupOrZero groupSum
  rw [find?_map_key]
  by_cases hk : k ∈ sortListBy le ((l.map key).dedup)
  · simp [hk]
  · rw [if_neg hk]
    have hnm : k ∉ l.map key := fun hm =>
      hk ((mem_sortListBy le k _).mpr (List.mem_dedup.mpr hm))
    exact (sumAt_eq_zero key val l k hnm).symm

theorem sumAt_append (key : α → κ) (val : α → K) (l₁ l₂ : List α) (k : κ) :
    sumAt key val (l₁ ++ l₂) k = sumAt key val l₁ k + sumAt key val l₂ k := by
  simp [sumAt, List.filter_append]

theorem sumAt_singleton (key : α → κ) (val : α → K) (a : α) (k : κ) :
    sumAt key val [a] k = if key a = k then val a else 0 := by
  by_cases h : key a = k <;> simp [sumAt, List.filter, h]

end GroupLemmas

/-! ## Claim C1 -/

/-- C1: for every pair of normalized work-type and sub-category strings, at
most one of the four category flags `is_prijem`, `is_expedice`,
`is_tonovani`, `is_transfer` (app.py lines 101-104) is true — no two hold
simultaneously. -/
theorem C1_category_flags_mutually_exclusive (wt wc : String) :
    (is_prijem wt wc && is_expedice wt wc) = false ∧
    (is_prijem wt wc && is_tonovani wt wc) = false ∧
    (is_prijem wt wc && is_transfer wt wc) = false ∧
    (is_expedice wt wc && is_tonovani wt wc) = false ∧
    (is_expedice wt wc && is_transfer wt wc) = false ∧
    (is_tonovani wt wc && is_transfer wt wc) = false ∧
    List.count true
      [is_prijem wt wc, is_expedice wt wc, is_tonovani wt wc, is_transfer wt wc] ≤ 1 :=
  ⟨prijem_expedice_excl wt wc, prijem_tonovani_excl wt wc, prijem_transfer_excl wt wc,
    expedice_tonovani_excl wt wc, expedice_transfer_excl wt wc, tonovani_transfer_excl wt wc,
    count_le_one_of_pairwise _ _ _ _ (prijem_expedice_excl wt wc) (prijem_tonovani_excl wt wc)
      (prijem_transfer_excl wt wc) (expedice_tonovani_excl wt wc) (expedice_transfer_excl wt wc)
      (tonovani_transfer_excl wt wc)⟩

/-! ## Claims C3, C5, C7, C8, C10 -/

section MainClaims

variable {K : Type*} [LinearOrderedCommRing K]

/-- C3: in every Day×User table, each row's metric columns are exactly the
conditional sums the spec describes — `Prijem` the sum of `EffectiveQty_STis1`
over `is_prijem` rows of that (day, user) key, `Expedice` likewise, `Tonovani`
the sum of `SkpQty` over `is_tonovani` rows — keys missing from a
sub-aggregate contributing zero via the outer merge's `fillna(0.0)`, and
`Celkem_bez_Transfery` is exactly the row-wise sum of the three metric
columns. -/
theorem C3_den_user_total_excl_transfer (rows : List (Enriched K)) (row : DURow K)
    (h : row ∈ den_user rows) :
    row.prijem =
      sumAt duKey (fun e => e.effQty) (rows.filter (fun e => e.prijem)) (row.den, row.user) ∧
    row.expedice =
      sumAt duKey (fun e => e.effQty) (rows.filter (fun e => e.expedice)) (row.den, row.user) ∧
    row.tonovani =
      sumAt duKey (fun e => e.skpQty) (rows.filter (fun e => e.tonovani)) (row.den, row.user) ∧
    row.celkem = row.prijem + row.expedice + row.tonovani := by
  unfold den_user at h
  rw [List.mem_map] at h
  obtain ⟨k, _, rfl⟩ := h
  refine ⟨?_, ?_, ?_, rfl⟩ <;>
    simp only [agg_metric, lookupOrZero_groupSum]

/-- C5: enrichment fails iff at least one required column is absent; the
error lists exactly the absent required columns (all of them, not only the
first); with all required columns present it returns the enriched table. -/
theorem C5_missing_columns (f : RawFrame K) :
    ((∃ c ∈ required_cols, c ∉ f.cols) ↔
      add_computed_columns f = Except.error (missingColumns f.cols required_cols)) ∧
    (∀ m, add_computed_columns f = Except.error m →
      ∀ c, (c ∈ m ↔ c ∈ required_cols ∧ c ∉ f.cols)) ∧
    ((∀ c ∈ required_cols, c ∈ f.cols) →
      add_computed_columns f = Except.ok (enrichRows f.rows)) := by
  have hmem : ∀ c, c ∈ missingColumns f.cols required_cols ↔
      c ∈ required_cols ∧ c ∉ f.cols := by
    intro c
    simp [missingColumns, List.mem_filter, List.contains]
  have hcase : add_computed_columns f =
      if (missingColumns f.cols required_cols).isEmpty then Except.ok (enrichRows f.rows)
      else Except.error (missingColumns f.cols required_cols) := by
    unfold add_computed_columns ensure_columns
    by_cases hz : (missingColumns f.cols required_cols).isEmpty <;> simp [hz]
  constructor
  · constructor
    · intro ⟨c, hc, hcc⟩
      rw [hcase, if_neg]
      simp only [List.isEmpty_iff]
      intro hnil
      have hcm := (hmem c).mpr ⟨hc, hcc⟩
      rw [hnil] at hcm
      exact List.not_mem_nil c hcm
    · intro herr
      rw [hcase] at herr
      by_cases hz : (missingColumns f.cols required_cols).isEmpty
      · rw [if_pos hz] at herr; exact absurd herr (by simp)
      · rw [List.isEmpty_iff] at hz
        obtain ⟨c, hc⟩ := List.exists_mem_of_ne_nil _ hz
        exact ⟨c, ((hmem c).mp hc).1, ((hmem c).mp hc).2⟩
  constructor
  · intro m hm c
    rw [hcase] at hm
    by_cases hz : (missingColumns f.cols required_cols).isEmpty
    · rw [if_pos hz] at hm; exact absurd hm (by simp)
    · rw [if_neg hz] at hm
      have : m = missingColumns f.cols required_cols := by
        injection hm with h1; exact h1.symm
      rw [this]; exact hmem c
  · intro hall
    rw [hcase, if_pos]
    rw [List.isEmpty_iff, List.eq_nil_iff_forall_not_mem]
    intro c hc
    exact ((hmem c).mp hc).2 (hall c ((hmem c).mp hc).1)

/-- C7: day derivation uses the 1899-12-30 origin — serial 1 is 1899-12-31;
a fractional serial truncates to the same day as its integer floor; a
non-numeric serial yields no day and such a row is excluded from the
enriched table and hence from every day-keyed output table. -/
theorem C7_excel_day_derivation :
    to_excel_date (Cell.num 1) = some (daysFromCivil 1899 12 31) ∧
    (∀ q : ℚ, to_excel_date (Cell.num q) = to_excel_date (Cell.num (⌊q⌋ : ℚ))) ∧
    to_excel_date Cell.nonNumeric = none ∧
    (∀ (l₁ l₂ : List (RawRow K)) (r : RawRow K),
      r.uzavrenaPrace = Cell.nonNumeric →
      enrichRows (l₁ ++ r :: l₂) = enrichRows (l₁ ++ l₂) ∧
      den_user (enrichRows (l₁ ++ r :: l₂)) = den_user (enrichRows (l₁ ++ l₂)) ∧
      sku_pivot (enrichRows (l₁ ++ r :: l₂)) = sku_pivot (enrichRows (l₁ ++ l₂)) ∧
      den_totals (enrichRows (l₁ ++ r :: l₂)) = den_totals (enrichRows (l₁ ++ l₂)) ∧
      transfer_df (enrichRows (l₁ ++ r :: l₂)) = transfer_df (enrichRows (l₁ ++ l₂))) := by
  refine ⟨by decide, ?_, rfl, ?_⟩
  · intro q
    simp [to_excel_date, parseNum, Int.floor_intCast]
  · intro l₁ l₂ r hr
    have hdrop : enrichRow r = none := by
      simp [enrichRow, to_excel_date, hr, parseNum]
    have hrows : enrichRows (l₁ ++ r :: l₂) = enrichRows (l₁ ++ l₂) := by
      simp [enrichRows, List.filterMap_append, List.filterMap_cons, hdrop]
    exact ⟨hrows, by rw [hrows], by rw [hrows], by rw [hrows], by rw [hrows]⟩

/-- C8: for every kept row, `SkpQty` (`qty_pallet_expanded`) equals the
parsed quantity times 24 exactly when the normalized unit is "PAL", and the
parsed quantity unchanged otherwise. -/
theorem C8_pallet_expansion (r : RawRow K) (e : Enriched K) (h : enrichRow r = some e) :
    e.skpQty =
      if normalize_str_series r.jednotka = "PAL" then parseQty r.mnozstviPrace * 24
      else parseQty r.mnozstviPrace := by
  unfold enrichRow at h
  cases hd : to_excel_date r.uzavrenaPrace with
  | none => rw [hd] at h; exact absurd h (by simp)
  | some den =>
    rw [hd] at h
    simp only [Option.map_some', Option.some.injEq] at h
    subst h
    by_cases hu : normalize_str_series r.jednotka = "PAL" <;> simp [enrichWith, hu]

/-- C10: a row whose unit normalizes to "ST" has `EffectiveQty_STis1 = 1`
even when its quantity cell is unparseable (coerced to 0); appending such a
row, when its Inbound or Outbound flag is set, raises that metric's
(day, user) sum by exactly 1, not 0. -/
theorem C10_st_unit_overrides_zero_coercion (l : List (RawRow K)) (r : RawRow K)
    (e : Enriched K)
    (hst : normalize_str_series r.jednotka = "ST")
    (hq : parseNum r.mnozstviPrace = none)
    (he : enrichRow r = some e)
    (mask : Enriched K → Bool)
    (hmask : mask = (fun x => x.prijem) ∨ mask = (fun x => x.expedice))
    (hme : mask e = true) :
    parseQty r.mnozstviPrace = 0 ∧ e.effQty = 1 ∧
    lookupOrZero
        (agg_metric duKeyLe (enrichRows (l ++ [r])) mask duKey (fun x => x.effQty))
        (duKey e) =
      lookupOrZero
        (agg_metric duKeyLe (enrichRows l) mask duKey (fun x => x.effQty))
        (duKey e) + 1 := by
  have hpq : parseQty r.mnozstviPrace = 0 := by simp [parseQty, hq]
  have heff : e.effQty = 1 := by
    unfold enrichRow at he
    cases hd : to_excel_date r.uzavrenaPrace with
    | none => rw [hd] at he; exact absurd he (by simp)
    | some den =>
      rw [hd] at he
      simp only [Option.map_some', Option.some.injEq] at he
      subst he
      simp [enrichWith, hst]
  refine ⟨hpq, heff, ?_⟩
  have hrows : enrichRows (l ++ [r]) = enrichRows l ++ [e] := by
    simp [enrichRows, List.filterMap_append, List.filterMap_cons, he]
  rw [hrows]
  simp only [agg_metric, lookupOrZero_groupSum, List.filter_append]
  rw [sumAt_append]
  have : List.filter mask [e] = [e] := by simp [List.filter, hme]
  rw [this, sumAt_singleton, if_pos rfl, heff]

end MainClaims

/-! ## Claim C9: location bucketing -/

/-- Inverse of `splitOnDash`: interleave the groups with `'-'`. -/
def joinDash : List (List Char) → List Char
  | [] => []
  | [g] => g
  | g :: g' :: gs => g ++ '-' :: joinDash (g' :: gs)

theorem splitOnDash_ne_nil (l : List Char) : splitOnDash l ≠ [] := by
  cases l with
  | nil => simp [splitOnDash]
  | cons c t =>
    by_cases hc : c == '-'
    · simp [splitOnDash, hc]
    · simp only [splitOnDash, hc, Bool.false_eq_true, if_false]
      cases hsp : splitOnDash t <;> simp

theorem joinDash_splitOnDash (l : List Char) : joinDash (splitOnDash l) = l := by
  induction l with
  | nil => rfl
  | cons c t ih =>
    by_cases hc : c = '-'
    · subst hc
      simp only [splitOnDash, beq_self_eq_true, if_true]
      cases hsp : splitOnDash t with
      | nil => exact absurd hsp (splitOnDash_ne_nil t)
      | cons g gs =>
        show [] ++ '-' :: joinDash (g :: gs) = '-' :: t
        rw [← hsp, ih]
        rfl
    · have hcb : (c == '-') = false := by simp [hc]
      simp only [splitOnDash, hcb, Bool.false_eq_true, if_false]
      cases hsp : splitOnDash t with
      | nil => exact absurd hsp (splitOnDash_ne_nil t)
      | cons g gs =>
        rw [hsp] at ih
        cases gs with
        | nil =>
          show c :: g = c :: t
          rw [← ih]
          rfl
        | cons g' gs' =>
          show (c :: g) ++ '-' :: joinDash (g' :: gs') = c :: t
          rw [← ih]
          rfl

theorem dash_not_mem_splitOnDash (l : List Char) :
    ∀ g ∈ splitOnDash l, '-' ∉ g := by
  induction l with
  | nil => simp [splitOnDash]
  | cons c t ih =>
    by_cases hc : c = '-'
    · subst hc
      simp only [splitOnDash, beq_self_eq_true, if_true]
      intro g hg
      rcases List.mem_cons.mp hg with rfl | hg'
      · simp
      · exact ih g hg'
    · have hcb : (c == '-') = false := by simp [hc]
      simp only [splitOnDash, hcb, Bool.false_eq_true, if_false]
      cases hsp : splitOnDash t with
      | nil => exact absurd hsp (splitOnDash_ne_nil t)
      | cons g gs =>
        intro g' hg'
        rcases List.mem_cons.mp hg' with rfl | hg''
        · intro hm
          rcases List.mem_cons.mp hm with h1 | h2
          · exact hc h1.symm
          · exact ih g (hsp ▸ List.mem_cons_self g gs) h2
        · exact ih g' (hsp ▸ List.mem_cons_of_mem g hg'')

theorem splitOnDash_no_dash (g : List Char) (hg : '-' ∉ g) : splitOnDash g = [g] := by
  induction g with
  | nil => rfl
  | cons c g' ih =>
    have hc : ¬c = '-' := fun h => hg (h ▸ List.mem_cons_self c g')
    have hcb : (c == '-') = false := by simp [hc]
    simp only [splitOnDash, hcb, Bool.false_eq_true, if_false]
    rw [ih (fun hm => hg (List.mem_cons_of_mem c hm))]

theorem splitOnDash_append_group (g rest : List Char) (hg : '-' ∉ g) :
    splitOnDash (g ++ '-' :: rest) = g :: splitOnDash rest := by
  induction g with
  | nil => simp [splitOnDash]
  | cons c g' ih =>
    have hc : ¬c = '-' := fun h => hg (h ▸ List.mem_cons_self c g')
    have hcb : (c == '-') = false := by simp [hc]
    simp only [List.cons_append, splitOnDash, hcb, Bool.false_eq_true, if_false, List.append_eq]
    rw [ih (fun hm => hg (List.mem_cons_of_mem c hm))]

/-- A nonempty all-digit group, as the claim's "integer". -/
def DigitGroupSpec (g : List Char) : Prop := g ≠ [] ∧ ∀ c ∈ g, c.isDigit = true

instance (g : List Char) : Decidable (DigitGroupSpec g) := by
  unfold DigitGroupSpec; infer_instance

theorem isDigitGroup_iff (g : List Char) : isDigitGroup g = true ↔ DigitGroupSpec g := by
  simp [isDigitGroup, DigitGroupSpec, List.all_eq_true, List.isEmpty_iff]

/-- Modelled from the claim's wording: the structural "single letter, dash,
integer, dash, integer, dash, integer" shape, parametrized by what counts as
the leading letter.  This is the specification-side pattern `matchesAddr` is
compared against. -/
def AddrShapeSpec (letterOk : Char → Prop) (s : String) : Prop :=
  ∃ c g1 g2 g3, s.data = c :: '-' :: (g1 ++ '-' :: (g2 ++ '-' :: g3)) ∧
    letterOk c ∧ DigitGroupSpec g1 ∧ DigitGroupSpec g2 ∧ DigitGroupSpec g3

/-- Modelled from the claim's wording: "any Latin letter including locale
accented letters" — upper or lower case ASCII letters, plus the Czech
accented letters in either case. -/
def latinLetterSpec (c : Char) : Prop :=
  ('A' ≤ c ∧ c ≤ 'Z') ∨ ('a' ≤ c ∧ c ≤ 'z') ∨
    c ∈ ['Á', 'Č', 'Ď', 'É', 'Ě', 'Í', 'Ň', 'Ó', 'Ř', 'Š', 'Ť', 'Ú', 'Ů', 'Ý', 'Ž'] ∨
    c ∈ ['á', 'č', 'ď', 'é', 'ě', 'í', 'ň', 'ó', 'ř', 'š', 'ť', 'ú', 'ů', 'ý', 'ž']

instance (c : Char) : Decidable (latinLetterSpec c) := by
  unfold latinLetterSpec; infer_instance

/-- The source regex recognizer agrees with the structural shape whose
letter class is the regex's (uppercase-only) class. -/
theorem matchesAddr_iff_shape (s : String) :
    matchesAddr s = true ↔ AddrShapeSpec (fun c => addrLetter c = true) s := by
  constructor
  · intro h
    unfold matchesAddr at h
    split at h
    case h_2 => exact absurd h (by simp)
    case h_1 c g1 g2 g3 heq =>
      simp only [Bool.and_eq_true, isDigitGroup_iff] at h
      refine ⟨c, g1, g2, g3, ?_, h.1.1.1, h.1.1.2, h.1.2, h.2⟩
      conv_lhs => rw [← joinDash_splitOnDash s.data, heq]
      rfl
  · rintro ⟨c, g1, g2, g3, hdata, hletter, hg1, hg2, hg3⟩
    have hdig : ∀ g : List Char, DigitGroupSpec g → '-' ∉ g := by
      intro g hgd hm
      have := hgd.2 '-' hm
      simp at this
    have hcne : '-' ∉ [c] := by
      intro hm
      rcases List.mem_cons.mp hm with h1 | h2
      · rw [← h1] at hletter
        exact absurd hletter (by decide)
      · exact absurd h2 (List.not_mem_nil '-')
    unfold matchesAddr
    rw [hdata, show (c :: '-' :: (g1 ++ '-' :: (g2 ++ '-' :: g3))) =
      [c] ++ '-' :: (g1 ++ '-' :: (g2 ++ '-' :: g3)) from rfl,
      splitOnDash_append_group _ _ hcne,
      splitOnDash_append_group _ _ (hdig g1 hg1),
      splitOnDash_append_group _ _ (hdig g2 hg2),
      splitOnDash_no_dash _ (hdig g3 hg3)]
    simp [hletter, (isDigitGroup_iff g1).mpr hg1, (isDigitGroup_iff g2).mpr hg2,
      (isDigitGroup_iff g3).mpr hg3]

/-- C9 counterexample: `"f-9-1-1"` has the claim's pattern shape — its
leading character is a (lowercase) Latin letter — yet the code's bucketing
leaves it unchanged instead of mapping it to the constant bucket label,
because the source regex's character class contains only uppercase
letters. -/
theorem C9_counterexample :
    AddrShapeSpec latinLetterSpec "f-9-1-1" ∧
    locationBucket "f-9-1-1" = "f-9-1-1" ∧ "f-9-1-1" ≠ locationBucketLabel := by
  refine ⟨⟨'f', ['9'], ['1'], ['1'], by decide, by decide, by decide, by decide, by decide⟩,
    by decide, by decide⟩

/-- C9 (amended): location bucketing, applied to raw (trimmed, neither
diacritic-stripped nor case-folded) location text, maps to the constant
bucket label exactly those locations of the shape "single letter, dash,
integer, dash, integer, dash, integer" whose letter is an UPPERCASE Latin
letter A–Z or uppercase Czech accented letter (the regex class); every other
location passes through unchanged as its own bucket. -/
theorem C9_amended_location_bucketing (loc : String) :
    (AddrShapeSpec (fun c => addrLetter c = true) loc ↔ matchesAddr loc = true) ∧
    (matchesAddr loc = true → locationBucket loc = locationBucketLabel) ∧
    (matchesAddr loc = false → locationBucket loc = loc) := by
  refine ⟨(matchesAddr_iff_shape loc).symm, ?_, ?_⟩ <;>
    intro h <;> simp [locationBucket, h]

/-- Witness for C9 (amended): the spec's two anchor examples. -/
theorem C9_amended_location_bucketing_witness :
    locationBucket "F-9-1-1" = locationBucketLabel ∧ locationBucket "DOCK A" = "DOCK A" :=
  ⟨(C9_amended_location_bucketing "F-9-1-1").2.1 (by decide),
    (C9_amended_location_bucketing "DOCK A").2.2 (by decide)⟩

/-! ## Claim C2: the Top-N selector's two paths -/

/-- A two-row `sku_pivot` table on one (day, user) pair with two SKUs of
distinct combined scores (1 for "A", 10 for "B"). -/
def c2Rows : List (SKURow ℤ) := [⟨0, "U", "A", 1, 0, 0⟩, ⟨0, "U", "B", 10, 0, 0⟩]

/-- C2 (code divergence): narrowing the Top-N selector to day 0 and user
"U" — which matches every row, so the narrowed set is the whole table —
returns SKU "A" with score 1 for N = 1, although the first row of the
narrowed set after sorting by score descending is SKU "B" with score 10,
which is what the no-narrowing path returns.  The
`groupby(["Den","User","SKU"])` between the score sort and `head(top_n)`
silently re-sorts by the grouping key, so the narrowed path takes the first
N rows in key order, not the N highest-scoring rows, and the two paths
disagree on identical effective data. -/
theorem C2_top_n_divergence :
    sku_top c2Rows (some 0) (some "U") 1 = [⟨0, "U", "A", 1, 0, 0, 1⟩] ∧
    (sortListBy soucetDesc ((c2Rows.map addSoucet).filter (maskTop (some 0) (some "U")))).take 1 =
      [⟨0, "U", "B", 10, 0, 0, 10⟩] ∧
    sku_top c2Rows none none 1 = [⟨0, "U", "B", 10, 0, 0, 10⟩] ∧
    sku_top c2Rows (some 0) (some "U") 1 ≠ sku_top c2Rows none none 1 :=
  ⟨by decide, by decide, by decide, by decide⟩

/-! ## Claim C4: Transfer quantities never reach tables 1-3 -/

section TransferExclusion

variable {K : Type*} [LinearOrderedCommRing K]

/-- Two input rows that agree on every cell except possibly the quantity
cell, which may differ only when the row classifies as a Transfer. -/
def TransferQtyVariant (r₁ r₂ : RawRow K) : Prop :=
  r₁.typPrace = r₂.typPrace ∧ r₁.idPracovniTridy = r₂.idPracovniTridy ∧
  r₁.jednotka = r₂.jednotka ∧ r₁.uzavrenaPrace = r₂.uzavrenaPrace ∧
  r₁.idUzivatele = r₂.idUzivatele ∧ r₁.cPolozky = r₂.cPolozky ∧ r₁.misto = r₂.misto ∧
  (r₁.mnozstviPrace = r₂.mnozstviPrace ∨
    is_transfer (normalize_str_series r₁.typPrace)
      (normalize_str_series r₁.idPracovniTridy) = true)

/-- The residue of `TransferQtyVariant` after enrichment: either the two
enriched rows are equal, or both are transfer rows (with every counted flag
false) agreeing on day, user, SKU and location bucket. -/
def EnrichedVariant (e₁ e₂ : Enriched K) : Prop :=
  e₁ = e₂ ∨
    (e₁.transfer = true ∧ e₁.prijem = false ∧ e₁.expedice = false ∧ e₁.tonovani = false ∧
     e₂.transfer = true ∧ e₂.prijem = false ∧ e₂.expedice = false ∧ e₂.tonovani = false ∧
     e₁.den = e₂.den ∧ e₁.user = e₂.user ∧ e₁.sku = e₂.sku ∧ e₁.locBucket = e₂.locBucket)

theorem enrichRow_variant (r₁ r₂ : RawRow K) (h : TransferQtyVariant r₁ r₂) :
    (enrichRow r₁ = none ∧ enrichRow r₂ = none) ∨
    ∃ den, enrichRow r₁ = some (enrichWith r₁ den) ∧
      enrichRow r₂ = some (enrichWith r₂ den) ∧
      EnrichedVariant (enrichWith r₁ den) (enrichWith r₂ den) := by
  obtain ⟨h1, h2, h3, h4, h5, h6, h7, h8⟩ := h
  cases hd : to_excel_date r₁.uzavrenaPrace with
  | none =>
    have hd₂ : to_excel_date r₂.uzavrenaPrace = none := by rw [← h4]; exact hd
    exact Or.inl ⟨by simp [enrichRow, hd], by simp [enrichRow, hd₂]⟩
  | some den =>
    have hd₂ : to_excel_date r₂.uzavrenaPrace = some den := by rw [← h4]; exact hd
    refine Or.inr ⟨den, by simp [enrichRow, hd], by simp [enrichRow, hd₂], ?_⟩
    rcases h8 with hq | ht
    · left
      unfold enrichWith
      rw [h1, h2, h3, h5, h6, h7, hq]
    · right
      obtain ⟨hp, hex, hton⟩ := transfer_excludes_others _ _ ht
      have hwt : normalize_str_series r₂.typPrace = normalize_str_series r₁.typPrace := by
        rw [h1]
      have hwc : normalize_str_series r₂.idPracovniTridy =
          normalize_str_series r₁.idPracovniTridy := by rw [h2]
      refine ⟨ht, hp, hex, hton, ?_, ?_, ?_, ?_, rfl, by simp [enrichWith, h5],
        by simp [enrichWith, h6], by simp [enrichWith, h7]⟩
      · show is_transfer (normalize_str_series r₂.typPrace)
          (normalize_str_series r₂.idPracovniTridy) = true
        rw [hwt, hwc]; exact ht
      · show is_prijem (normalize_str_series r₂.typPrace)
          (normalize_str_series r₂.idPracovniTridy) = false
        rw [hwt, hwc]; exact hp
      · show is_expedice (normalize_str_series r₂.typPrace)
          (normalize_str_series r₂.idPracovniTridy) = false
        rw [hwt, hwc]; exact hex
      · show is_tonovani (normalize_str_series r₂.typPrace)
          (normalize_str_series r₂.idPracovniTridy) = false
        rw [hwt, hwc]; exact hton

/-- Over related inputs, any mask that cannot hold on transfer rows selects
literally equal sublists of the enriched tables. -/
theorem filter_enrichRows_variant (m : Enriched K → Bool)
    (hme : ∀ e₁ e₂ : Enriched K, EnrichedVariant e₁ e₂ → m e₁ = m e₂)
    (hkeep : ∀ e₁ e₂ : Enriched K, EnrichedVariant e₁ e₂ → m e₁ = true → e₁ = e₂)
    {l₁ l₂ : List (RawRow K)} (h : List.Forall₂ TransferQtyVariant l₁ l₂) :
    (enrichRows l₁).filter m = (enrichRows l₂).filter m := by
  induction h with
  | nil => rfl
  | @cons a b l₁' l₂' hr _ ih =>
    rcases enrichRow_variant a b hr with ⟨hn₁, hn₂⟩ | ⟨den, he₁, he₂, hv⟩
    · simpa [enrichRows, List.filterMap_cons, hn₁, hn₂] using ih
    · by_cases hb : m (enrichWith a den) = true
      · have heq := hkeep _ _ hv hb
        simp only [enrichRows, List.filterMap_cons, he₁, he₂, List.filter_cons]
        rw [← heq, hb]
        simp only [if_true]
        exact congrArg (fun t => enrichWith a den :: t) ih
      · have hb₁ : m (enrichWith a den) = false := by revert hb; cases m (enrichWith a den) <;> simp
        have hb₂ : m (enrichWith b den) = false := by rw [← hme _ _ hv]; exact hb₁
        simp only [enrichRows, List.filterMap_cons, he₁, he₂, List.filter_cons, hb₁, hb₂]
        simpa using ih

/-- Over related inputs, the transfer rows produce literally equal
(day, location-bucket) key lists. -/
theorem transfer_keys_variant {l₁ l₂ : List (RawRow K)}
    (h : List.Forall₂ TransferQtyVariant l₁ l₂) :
    ((enrichRows l₁).filter (fun e => e.transfer)).map (fun e => (e.den, e.locBucket)) =
      ((enrichRows l₂).filter (fun e => e.transfer)).map (fun e => (e.den, e.locBucket)) := by
  induction h with
  | nil => rfl
  | @cons a b l₁' l₂' hr _ ih =>
    rcases enrichRow_variant a b hr with ⟨hn₁, hn₂⟩ | ⟨den, he₁, he₂, hv⟩
    · simpa [enrichRows, List.filterMap_cons, hn₁, hn₂] using ih
    · have htr : (enrichWith a den).transfer = (enrichWith b den).transfer := by
        rcases hv with heq | hv'
        · rw [heq]
        · rw [hv'.1, hv'.2.2.2.2.1]
      have hkey : ((enrichWith a den).den, (enrichWith a den).locBucket) =
          ((enrichWith b den).den, (enrichWith b den).locBucket) := by
        rcases hv with heq | hv'
        · rw [heq]
        · rw [hv'.2.2.2.2.2.2.2.2.1, hv'.2.2.2.2.2.2.2.2.2.2.2]
      by_cases hb : (enrichWith a den).transfer = true
      · simp only [enrichRows, List.filterMap_cons, he₁, he₂, List.filter_cons, hb, ← htr,
          if_true, List.map_cons]
        rw [hkey]
        exact congrArg
          (fun t => ((enrichWith b den).den, (enrichWith b den).locBucket) :: t) ih
      · have hb₁ : (enrichWith a den).transfer = false := by
          revert hb; cases (enrichWith a den).transfer <;> simp
        have hb₂ : (enrichWith b den).transfer = false := by rw [← htr]; exact hb₁
        simp only [enrichRows, List.filterMap_cons, he₁, he₂, List.filter_cons, hb₁, hb₂]
        simpa using ih

/-- C4: the quantity of a Transfer-classified row never reaches any sum in
tables 1-3 — two inputs differing only in the quantity cells of
Transfer-classified rows produce identical Day×User, Day×User×SKU and
Day-totals tables — and the Transfers table, which records only a
(`ℕ`-valued) row count per (day, location bucket) and no quantity sum, is
also unchanged. -/
theorem C4_transfer_quantities_never_counted (l₁ l₂ : List (RawRow K))
    (h : List.Forall₂ TransferQtyVariant l₁ l₂) :
    den_user (enrichRows l₁) = den_user (enrichRows l₂) ∧
    sku_pivot (enrichRows l₁) = sku_pivot (enrichRows l₂) ∧
    den_totals (enrichRows l₁) = den_totals (enrichRows l₂) ∧
    transfer_df (enrichRows l₁) = transfer_df (enrichRows l₂) := by
  have hfp := filter_enrichRows_variant (K := K) (fun e => e.prijem)
    (fun e₁ e₂ hv => by rcases hv with rfl | hv' <;> simp_all)
    (fun e₁ e₂ hv hb => by rcases hv with rfl | hv' <;> simp_all) h
  have hfe := filter_enrichRows_variant (K := K) (fun e => e.expedice)
    (fun e₁ e₂ hv => by rcases hv with rfl | hv' <;> simp_all)
    (fun e₁ e₂ hv hb => by rcases hv with rfl | hv' <;> simp_all) h
  have hft := filter_enrichRows_variant (K := K) (fun e => e.tonovani)
    (fun e₁ e₂ hv => by rcases hv with rfl | hv' <;> simp_all)
    (fun e₁ e₂ hv hb => by rcases hv with rfl | hv' <;> simp_all) h
  have hdu : den_user (enrichRows l₁) = den_user (enrichRows l₂) := by
    simp only [den_user, agg_metric]
    rw [hfp, hfe, hft]
  have hsp : sku_pivot (enrichRows l₁) = sku_pivot (enrichRows l₂) := by
    simp only [sku_pivot, agg_metric]
    rw [hfp, hfe, hft]
  have hdt : den_totals (enrichRows l₁) = den_totals (enrichRows l₂) := by
    simp only [den_totals]
    rw [hdu]
  have htf : transfer_df (enrichRows l₁) = transfer_df (enrichRows l₂) := by
    have hk := transfer_keys_variant h
    simp only [transfer_df]
    rw [hk]
  exact ⟨hdu, hsp, hdt, htf⟩

end TransferExclusion

/-! ## Claim C6: the text normalizer -/

/-- The Czech accented letters handled by the NFKD→ascii table. -/
def czechAccented : List Char :=
  ['á', 'Á', 'č', 'Č', 'ď', 'Ď', 'é', 'É', 'ě', 'Ě', 'í', 'Í', 'ň', 'Ň', 'ó', 'Ó',
   'ř', 'Ř', 'š', 'Š', 'ť', 'Ť', 'ú', 'Ú', 'ů', 'Ů', 'ý', 'Ý', 'ž', 'Ž']

/-- Characters over which the normalizer is well behaved: ASCII, or a Czech
accented letter (whose NFKD form contains an ASCII base letter). -/
def CzechLatin (c : Char) : Prop := c.toNat ≤ 127 ∨ c ∈ czechAccented

instance (c : Char) : Decidable (CzechLatin c) := by
  unfold CzechLatin; infer_instance

theorem ascii_toUpper_facts : ∀ n : Fin 128,
    ((Char.ofNat n.val).toUpper.toNat ≤ 127) ∧
    ((Char.ofNat n.val).toUpper.toUpper = (Char.ofNat n.val).toUpper) ∧
    (isSpaceChar ((Char.ofNat n.val).toUpper) = isSpaceChar (Char.ofNat n.val)) := by
  decide

theorem toUpper_ascii_le (c : Char) (h : c.toNat ≤ 127) : c.toUpper.toNat ≤ 127 := by
  have hf := (ascii_toUpper_facts ⟨c.toNat, by omega⟩).1
  rwa [Char.ofNat_toNat] at hf

theorem toUpper_idem_ascii (c : Char) (h : c.toNat ≤ 127) : c.toUpper.toUpper = c.toUpper := by
  have hf := (ascii_toUpper_facts ⟨c.toNat, by omega⟩).2.1
  rwa [Char.ofNat_toNat] at hf

theorem isSpaceChar_toUpper_ascii (c : Char) (h : c.toNat ≤ 127) :
    isSpaceChar c.toUpper = isSpaceChar c := by
  have hf := (ascii_toUpper_facts ⟨c.toNat, by omega⟩).2.2
  rwa [Char.ofNat_toNat] at hf

theorem charNFKDAscii_of_ascii (c : Char) (h : c.toNat ≤ 127) : charNFKDAscii c = [c] := by
  simp [charNFKDAscii, h]

theorem charNFKDAscii_of_czech : ∀ c ∈ czechAccented,
    charNFKDAscii c ≠ [] ∧ ∀ d ∈ charNFKDAscii c, d.toNat ≤ 127 ∧ isSpaceChar d = false := by
  decide

theorem charNFKDAscii_ne_nil (c : Char) (h : CzechLatin c) : charNFKDAscii c ≠ [] := by
  rcases h with ha | hc
  · rw [charNFKDAscii_of_ascii c ha]; simp
  · exact (charNFKDAscii_of_czech c hc).1

theorem charNFKDAscii_ascii_out (c : Char) (h : CzechLatin c) :
    ∀ d ∈ charNFKDAscii c, d.toNat ≤ 127 := by
  rcases h with ha | hc
  · rw [charNFKDAscii_of_ascii c ha]
    intro d hd
    rw [List.mem_singleton.mp hd]
    exact ha
  · exact fun d hd => ((charNFKDAscii_of_czech c hc).2 d hd).1

theorem charNFKDAscii_nonspace_out (c : Char) (h : CzechLatin c)
    (hs : isSpaceChar c = false) : ∀ d ∈ charNFKDAscii c, isSpaceChar d = false := by
  rcases h with ha | hc
  · rw [charNFKDAscii_of_ascii c ha]
    intro d hd
    rw [List.mem_singleton.mp hd]
    exact hs
  · exact fun d hd => ((charNFKDAscii_of_czech c hc).2 d hd).2

theorem mem_of_mem_ltrimL {c : Char} {l : List Char} (h : c ∈ ltrimL l) : c ∈ l :=
  (List.dropWhile_suffix isSpaceChar).sublist.mem h

theorem mem_of_mem_rtrimL {c : Char} {l : List Char} (h : c ∈ rtrimL l) : c ∈ l := by
  unfold rtrimL at h
  rw [List.mem_reverse] at h
  exact List.mem_reverse.mp ((List.dropWhile_suffix isSpaceChar).sublist.mem h)

theorem mem_of_mem_trimL {c : Char} {l : List Char} (h : c ∈ trimL l) : c ∈ l :=
  mem_of_mem_ltrimL (mem_of_mem_rtrimL h)

/-- Characters of the normalized form are ASCII and `toUpper`-fixed. -/
theorem normL_ascii (l : List Char) (h : ∀ c ∈ l, CzechLatin c) :
    ∀ c ∈ normL l, c.toNat ≤ 127 ∧ c.toUpper = c := by
  intro c hc
  unfold normL upperL at hc
  obtain ⟨d, hd, rfl⟩ := List.mem_map.mp hc
  unfold stripDiacriticsL at hd
  obtain ⟨e, he, hde⟩ := List.mem_flatMap.mp hd
  have hcz : CzechLatin e := h e (mem_of_mem_trimL he)
  have hdle : d.toNat ≤ 127 := charNFKDAscii_ascii_out e hcz d hde
  exact ⟨toUpper_ascii_le d hdle, toUpper_idem_ascii d hdle⟩

theorem stripDiacriticsL_id (u : List Char) (h : ∀ c ∈ u, c.toNat ≤ 127) :
    stripDiacriticsL u = u := by
  induction u with
  | nil => rfl
  | cons c t ih =>
    rw [stripDiacriticsL, List.flatMap_cons,
      charNFKDAscii_of_ascii c (h c (List.mem_cons_self c t))]
    rw [show t.flatMap charNFKDAscii = t from ih (fun d hd => h d (List.mem_cons_of_mem c hd))]
    rfl

theorem upperL_id (u : List Char) (h : ∀ c ∈ u, c.toUpper = c) : upperL u = u := by
  unfold upperL
  rw [List.map_congr_left h]
  simp

theorem head_dropWhile_nonspace {l : List Char} {c : Char}
    (h : (l.dropWhile isSpaceChar).head? = some c) : isSpaceChar c = false := by
  induction l with
  | nil => simp [List.dropWhile] at h
  | cons a t ih =>
    rw [List.dropWhile_cons] at h
    by_cases ha : isSpaceChar a = true
    · rw [if_pos ha] at h; exact ih h
    · rw [if_neg ha] at h
      cases h
      revert ha; cases isSpaceChar c <;> simp

theorem ltrimL_id (u : List Char) (h : ∀ c, u.head? = some c → isSpaceChar c = false) :
    ltrimL u = u := by
  cases u with
  | nil => rfl
  | cons c t =>
    unfold ltrimL
    rw [List.dropWhile_cons, if_neg]
    rw [h c rfl]
    simp

theorem rtrimL_id (u : List Char) (h : ∀ c, u.getLast? = some c → isSpaceChar c = false) :
    rtrimL u = u := by
  unfold rtrimL
  cases hr : u.reverse with
  | nil =>
    rw [List.reverse_eq_nil_iff] at hr
    subst hr
    rfl
  | cons d r =>
    have hd : isSpaceChar d = false := by
      apply h
      rw [← List.head?_reverse, hr]
      rfl
    rw [List.dropWhile_cons, if_neg (by rw [hd]; simp)]
    rw [← hr, List.reverse_reverse]

theorem trimL_id (u : List Char) (hh : ∀ c, u.head? = some c → isSpaceChar c = false)
    (hl : ∀ c, u.getLast? = some c → isSpaceChar c = false) : trimL u = u := by
  unfold trimL
  rw [ltrimL_id u hh, rtrimL_id u hl]

/-- Head of an uppercased flat-map is non-space whenever the head's image is
nonempty and consists of non-space ASCII characters. -/
theorem head_upper_flatMap_nonspace (f : Char → List Char) (x : List Char)
    (hx : ∀ c, x.head? = some c →
      f c ≠ [] ∧ ∀ d ∈ f c, isSpaceChar d = false ∧ d.toNat ≤ 127) :
    ∀ c, (upperL (x.flatMap f)).head? = some c → isSpaceChar c = false := by
  intro c hc
  cases x with
  | nil => simp [upperL] at hc
  | cons c₀ t =>
    obtain ⟨hne, hmem⟩ := hx c₀ rfl
    cases hf : f c₀ with
    | nil => exact absurd hf hne
    | cons e es =>
      rw [upperL, List.flatMap_cons, hf] at hc
      simp only [List.cons_append, List.map_cons, List.head?_cons, Option.some.injEq] at hc
      subst hc
      have he := hmem e (hf ▸ List.mem_cons_self e es)
      rw [isSpaceChar_toUpper_ascii e he.2]
      exact he.1

theorem head_trimL_nonspace {l : List Char} {c : Char}
    (h : (trimL l).head? = some c) : isSpaceChar c = false := by
  unfold trimL rtrimL at h
  cases hr : (ltrimL l).reverse with
  | nil => rw [hr] at h; simp at h
  | cons d r =>
    rw [hr] at h
    have hpre : (List.dropWhile isSpaceChar (d :: r)).reverse <+: (d :: r).reverse :=
      List.reverse_prefix.mpr (List.dropWhile_suffix isSpaceChar)
    obtain ⟨t', ht'⟩ := hpre
    have : ((d :: r).reverse).head? = some c := by
      rw [← ht']
      cases hdw : (List.dropWhile isSpaceChar (d :: r)).reverse with
      | nil => rw [hdw] at h; simp at h
      | cons x xs =>
        rw [hdw] at h
        cases h
        rfl
    rw [← hr, List.reverse_reverse] at this
    exact head_dropWhile_nonspace this

theorem getLast_trimL_nonspace {l : List Char} {c : Char}
    (h : (trimL l).getLast? = some c) : isSpaceChar c = false := by
  unfold trimL rtrimL at h
  rw [List.getLast?_eq_head?_reverse, List.reverse_reverse] at h
  exact head_dropWhile_nonspace h

/-- Edges of the normalized form are non-space. -/
theorem normL_edges (l : List Char) (h : ∀ c ∈ l, CzechLatin c) :
    (∀ c, (normL l).head? = some c → isSpaceChar c = false) ∧
    (∀ c, (normL l).getLast? = some c → isSpaceChar c = false) := by
  constructor
  · intro c hc
    refine head_upper_flatMap_nonspace charNFKDAscii (trimL l) ?_ c hc
    intro c₀ h₀
    have hcz : CzechLatin c₀ := by
      apply h
      apply mem_of_mem_trimL
      cases htr : trimL l with
      | nil => rw [htr] at h₀; simp at h₀
      | cons a t =>
        rw [htr] at h₀
        cases h₀
        exact List.mem_cons_self _ _
    have hns : isSpaceChar c₀ = false := head_trimL_nonspace h₀
    exact ⟨charNFKDAscii_ne_nil c₀ hcz,
      fun d hd => ⟨charNFKDAscii_nonspace_out c₀ hcz hns d hd,
        charNFKDAscii_ascii_out c₀ hcz d hd⟩⟩
  · intro c hc
    rw [List.getLast?_eq_head?_reverse] at hc
    have hrev : (normL l).reverse =
        upperL ((trimL l).reverse.flatMap (List.reverse ∘ charNFKDAscii)) := by
      unfold normL upperL stripDiacriticsL
      rw [← List.map_reverse, List.reverse_flatMap]
    rw [hrev] at hc
    refine head_upper_flatMap_nonspace _ ((trimL l).reverse) ?_ c hc
    intro c₀ h₀
    have hmem₀ : c₀ ∈ trimL l := by
      rw [← List.mem_reverse]
      cases htr : (trimL l).reverse with
      | nil => rw [htr] at h₀; simp at h₀
      | cons a t =>
        rw [htr] at h₀
        cases h₀
        exact List.mem_cons_self _ _
    have hcz : CzechLatin c₀ := h c₀ (mem_of_mem_trimL hmem₀)
    have hns : isSpaceChar c₀ = false := by
      apply getLast_trimL_nonspace (l := l)
      rw [List.getLast?_eq_head?_reverse]
      exact h₀
    refine ⟨?_, ?_⟩
    · simp only [Function.comp_apply, ne_eq, List.reverse_eq_nil_iff]
      exact charNFKDAscii_ne_nil c₀ hcz
    · intro d hd
      rw [Function.comp_apply, List.mem_reverse] at hd
      exact ⟨charNFKDAscii_nonspace_out c₀ hcz hns d hd,
        charNFKDAscii_ascii_out c₀ hcz d hd⟩

/-- Idempotency of the normalization pipeline on ASCII-and-Czech strings. -/
theorem normL_idem (l : List Char) (h : ∀ c ∈ l, CzechLatin c) :
    normL (normL l) = normL l := by
  have hascii := normL_ascii l h
  have hedge := normL_edges l h
  have h1 : trimL (normL l) = normL l := trimL_id _ hedge.1 hedge.2
  show upperL (stripDiacriticsL (trimL (normL l))) = normL l
  rw [h1, stripDiacriticsL_id _ (fun c hc => (hascii c hc).1),
    upperL_id _ (fun c hc => (hascii c hc).2)]

/-- C6 counterexample: the claim's unrestricted idempotency fails.  The
character '€' has no ASCII constituent in its NFKD form, so the
ascii-"ignore" encode deletes it wholesale: normalizing "€ A" yields " A"
(the interior space becomes leading), and normalizing again trims it to
"A". -/
theorem C6_counterexample :
    normalizeString (normalizeString "€ A") ≠ normalizeString "€ A" ∧
    normalizeString "€ A" = " A" ∧ normalizeString (normalizeString "€ A") = "A" :=
  ⟨by decide, by decide, by decide⟩

/-- C6 (amended): the normalizer is idempotent on every string whose
characters are ASCII or Czech accented letters (for characters deleted
wholesale by the ascii encode, such as '€', a second pass can trim newly
exposed edge whitespace); case and accent variants collapse to one
canonical form ("Výroba", "VÝROBA", "výroba" all normalize to "VYROBA");
an absent value is treated as the empty string; and the normalizer is a
total function (no failure path). -/
theorem C6_amended_normalizer_idempotent :
    (∀ s : String, (∀ c ∈ s.data, CzechLatin c) →
      normalizeString (normalizeString s) = normalizeString s) ∧
    normalize_str_series none = "" ∧
    normalizeString "Výroba" = "VYROBA" ∧
    normalizeString "VÝROBA" = "VYROBA" ∧
    normalizeString "výroba" = "VYROBA" := by
  refine ⟨?_, by decide, by decide, by decide, by decide⟩
  intro s hs
  exact congrArg (fun t => (⟨t⟩ : String)) (normL_idem s.data hs)

/-- Witness for C6 (amended): idempotency at the concrete string "Číslo". -/
theorem C6_amended_normalizer_idempotent_witness :
    normalizeString (normalizeString "Číslo") = normalizeString "Číslo" :=
  C6_amended_normalizer_idempotent.1 "Číslo" (by decide)

/-! ## Concrete witnesses for the remaining hypothesis-bearing theorems -/

/-- A one-row enriched table: one Inbound row with `effQty` 5. -/
def c3Row : Enriched ℤ := ⟨0, "u", "s", "L", "L", 5, 5, 7, true, false, false, false⟩

/-- Its Day×User output row. -/
def c3DU : DURow ℤ := ⟨0, "u", 5, 0, 0, 5⟩

/-- Witness for C3 at a concrete one-row table. -/
theorem C3_den_user_total_excl_transfer_witness :
    c3DU.prijem =
      sumAt duKey (fun e => e.effQty) ([c3Row].filter (fun e => e.prijem)) (c3DU.den, c3DU.user) ∧
    c3DU.expedice =
      sumAt duKey (fun e => e.effQty) ([c3Row].filter (fun e => e.expedice)) (c3DU.den, c3DU.user) ∧
    c3DU.tonovani =
      sumAt duKey (fun e => e.skpQty) ([c3Row].filter (fun e => e.tonovani)) (c3DU.den, c3DU.user) ∧
    c3DU.celkem = c3DU.prijem + c3DU.expedice + c3DU.tonovani :=
  C3_den_user_total_excl_transfer [c3Row] c3DU (by decide)

/-- A Transfer-classified raw row (work type "Vložit", empty work class)
with quantity 5. -/
def c4RowA : RawRow ℤ :=
  ⟨some "Vložit", none, Cell.num 5, some "KS", Cell.num 1, some "u", some "s", some "M"⟩

/-- The same row with its quantity changed to 9. -/
def c4RowB : RawRow ℤ :=
  ⟨some "Vložit", none, Cell.num 9, some "KS", Cell.num 1, some "u", some "s", some "M"⟩

/-- Witness for C4: changing a transfer row's quantity from 5 to 9 leaves
table 1 and table 4 unchanged. -/
theorem C4_transfer_quantities_never_counted_witness :
    den_user (enrichRows [c4RowA]) = den_user (enrichRows [c4RowB]) ∧
    transfer_df (enrichRows [c4RowA]) = transfer_df (enrichRows [c4RowB]) :=
  ⟨(C4_transfer_quantities_never_counted [c4RowA] [c4RowB]
      (List.Forall₂.cons ⟨rfl, rfl, rfl, rfl, rfl, rfl, rfl, Or.inr (by decide)⟩
        List.Forall₂.nil)).1,
   (C4_transfer_quantities_never_counted [c4RowA] [c4RowB]
      (List.Forall₂.cons ⟨rfl, rfl, rfl, rfl, rfl, rfl, rfl, Or.inr (by decide)⟩
        List.Forall₂.nil)).2.2.2⟩

/-- Witness for C5: a frame with all required columns enriches, a frame
missing columns errors with the full missing list. -/
theorem C5_missing_columns_witness :
    add_computed_columns (RawFrame.mk required_cols ([] : List (RawRow ℤ))) =
      Except.ok (enrichRows ([] : List (RawRow ℤ))) ∧
    add_computed_columns (RawFrame.mk ["Typ práce"] ([] : List (RawRow ℤ))) =
      Except.error (missingColumns ["Typ práce"] required_cols) :=
  ⟨(C5_missing_columns (RawFrame.mk required_cols ([] : List (RawRow ℤ)))).2.2 (by decide),
   (C5_missing_columns (RawFrame.mk ["Typ práce"] ([] : List (RawRow ℤ)))).1.mp
     ⟨"Jednotka", by decide, by decide⟩⟩

/-- A raw row whose closed-work serial cell is non-numeric. -/
def c7Row : RawRow ℤ :=
  ⟨some "Vložit", some "Nákup", Cell.num 1, some "ST", Cell.nonNumeric, some "u", some "s",
    some "L"⟩

/-- Witness for C7: the non-numeric-date row is dropped from the enriched
table and from the Day×User table. -/
theorem C7_excel_day_derivation_witness :
    enrichRows [c7Row] = enrichRows ([] : List (RawRow ℤ)) ∧
    den_user (enrichRows [c7Row]) = den_user (enrichRows ([] : List (RawRow ℤ))) :=
  ⟨((C7_excel_day_derivation (K := ℤ)).2.2.2 [] [] c7Row rfl).1,
   ((C7_excel_day_derivation (K := ℤ)).2.2.2 [] [] c7Row rfl).2.1⟩

/-- A raw row in pallet units (unnormalized unit text " pal ") with
quantity 3, closed on serial day 1. -/
def c8Row : RawRow ℤ :=
  ⟨some "Vložit", some "Výroba", Cell.num 3, some " pal ", Cell.num 1, some "u", some "s",
    some "L"⟩

/-- Witness for C8 at the concrete pallet row (its `skpQty` is 3 × 24). -/
theorem C8_pallet_expansion_witness :
    (enrichWith c8Row (-25568)).skpQty =
      if normalize_str_series c8Row.jednotka = "PAL" then parseQty c8Row.mnozstviPrace * 24
      else parseQty c8Row.mnozstviPrace :=
  C8_pallet_expansion c8Row (enrichWith c8Row (-25568)) (by decide)

/-- An Inbound row in piece units ("st") whose quantity cell does not
parse. -/
def c10Row : RawRow ℤ :=
  ⟨some "Vložit", some "Nákup", Cell.nonNumeric, some "st", Cell.num 1, some "u", some "s",
    some "L"⟩

/-- Witness for C10: the bad-quantity "ST" row still adds 1 to its
(day, user) Inbound sum. -/
theorem C10_st_unit_overrides_zero_coercion_witness :
    parseQty c10Row.mnozstviPrace = 0 ∧ (enrichWith c10Row (-25568)).effQty = 1 ∧
    lookupOrZero
        (agg_metric duKeyLe (enrichRows ([] ++ [c10Row])) (fun x => x.prijem) duKey
          (fun x => x.effQty))
        (duKey (enrichWith c10Row (-25568))) =
      lookupOrZero
        (agg_metric duKeyLe (enrichRows ([] : List (RawRow ℤ))) (fun x => x.prijem) duKey
          (fun x => x.effQty))
        (duKey (enrichWith c10Row (-25568))) + 1 :=
  C10_st_unit_overrides_zero_coercion [] c10Row (enrichWith c10Row (-25568)) (by decide) rfl
    (by decide) (fun x => x.prijem) (Or.inl rfl) (by decide)

end OPS
